import Mathlib

/-!
Verification of the soramimi archive-and-replay engine.

The definitions below are a shallow embedding of the authoritative
(timestamped) implementation in the repository: the bounded FIFO archive
of captured audio segments (`archiveAudio`), the exclusion-window
candidate computation and random fragment selection with concatenating
copy (`playRandomSoraMimi`), the probabilistic trigger tick
(`randomTriggerTick`), and the guaranteed-trigger scheduler
(`scheduleNextGuaranteedTrigger` and the timer callback
`guaranteedTimerFire`).  Audio samples are modelled as rationals,
`Math.random()` draws as rational parameters `r` with `0 ≤ r < 1`,
and `Date.now()` timestamps as integers (milliseconds).
-/

namespace Soramimi

/-- Capacity of the archive queue (source constant `MAX_ARCHIVE_SEGMENTS`). -/
def MAX_ARCHIVE_SEGMENTS : Nat := 300

/-- Sample-block size of the capture callback (source constant `BUFFER_SIZE`). -/
def BUFFER_SIZE : Nat := 4096

/-- Default sample rate (source constant `SAMPLE_RATE`). -/
def SAMPLE_RATE : Nat := 44100

/-- Minimum replay-fragment duration in seconds (source constant `SEGMENT_MIN_SEC`). -/
def SEGMENT_MIN_SEC : ℚ := 2

/-- Maximum replay-fragment duration in seconds (source constant `SEGMENT_MAX_SEC`). -/
def SEGMENT_MAX_SEC : ℚ := 5

/-- Exclusion window for recent segments (source constant `EXCLUDE_RECENT_MS`). -/
def EXCLUDE_RECENT_MS : Int := 4000

/-- One archived capture unit: the copied sample block and its capture
timestamp, as pushed by `archiveAudio` (`{ samples: segmentCopy, t: Date.now() }`). -/
structure Segment where
  samples : List ℚ
  t : Int
deriving DecidableEq

/-- Push one segment onto the archive queue and evict the oldest element
when the capacity is exceeded; this is the queue update performed by
`archiveAudio`: `ARCHIVE_QUEUE.push(...)` followed by
`if (ARCHIVE_QUEUE.length > MAX_ARCHIVE_SEGMENTS) ARCHIVE_QUEUE.shift()`. -/
def archivePush (q : List Segment) (seg : Segment) : List Segment :=
  let q1 := q ++ [seg]
  if MAX_ARCHIVE_SEGMENTS < q1.length then q1.tail else q1

/-- The capture callback `archiveAudio(event)`: copies the input block
(`new Float32Array(inputBuffer)`), tags it with the current time, and
appends it to the queue with FIFO eviction. -/
def archiveAudio (q : List Segment) (input : List ℚ) (now : Int) : List Segment :=
  archivePush q { samples := input, t := now }

/-- The candidate-index computation inside `playRandomSoraMimi`: indices
`i` of queue entries whose segment exists, has a truthy timestamp
(`!seg.t` skips `t == 0`), and was captured more than `EXCLUDE_RECENT_MS`
milliseconds before `now`. -/
def candidateIndices (q : List Segment) (now : Int) : List Nat :=
  (List.range q.length).filter fun i =>
    match q[i]? with
    | some seg => decide (seg.t ≠ 0 ∧ EXCLUDE_RECENT_MS < now - seg.t)
    | none => false

/-- Fragment length computation of `playRandomSoraMimi`:
`Math.round(durationSec * sampleRate / BUFFER_SIZE) * BUFFER_SIZE`.
JavaScript `Math.round` rounds half towards positive infinity, which is
`round` on ℚ. -/
def segmentLengthOf (durationSec sampleRate : ℚ) : Int :=
  round (durationSec * sampleRate / (BUFFER_SIZE : ℚ)) * (BUFFER_SIZE : Int)

/-- One iteration of the copy loop in `playRandomSoraMimi` step 4: if the
output is not yet full, read the segment at `(startIndex + i) % segmentCount`,
copy `min(BUFFER_SIZE, segmentLength - offset, segment.length)` samples
into the output, and advance the offset. The state is `(offset, copied samples)`. -/
def copyStep (q : List Segment) (startIndex segLen : Nat) (st : Nat × List ℚ) (i : Nat) :
    Nat × List ℚ :=
  if st.1 < segLen then
    match q[(startIndex + i) % q.length]? with
    | some seg =>
      let copyLength := min BUFFER_SIZE (min (segLen - st.1) seg.samples.length)
      (st.1 + copyLength, st.2 ++ seg.samples.take copyLength)
    | none => st
  else st

/-- The concatenating copy of `playRandomSoraMimi` steps 3 and 4: a fresh
output buffer of `segLen` zeroed samples into which the loop copies data
from the queue, wrapping circularly from `startIndex`.  The result is the
final contents of `outputData`: the copied samples followed by the
untouched zero tail. -/
def buildFragment (q : List Segment) (startIndex segLen : Nat) : List ℚ :=
  let fin := (List.range q.length).foldl (copyStep q startIndex segLen) (0, [])
  fin.2 ++ List.replicate (segLen - fin.1) 0

/-- The observable state of the audio context (`audioContext.state`). -/
inductive CtxState
  | running
  | suspended
  | closed
deriving DecidableEq

/-- The module state relevant to the archive-and-replay engine:
`audioContext` (absent or in a given state), its sample rate, the archive
queue, and the pending guaranteed-trigger delay (`guaranteeTimer`). -/
structure AppState where
  ctx : Option CtxState
  sampleRate : ℚ
  queue : List Segment
  guaranteeTimer : Option Int
deriving DecidableEq

/-- The result of one successful `playRandomSoraMimi` invocation: the
selected start index, whether the degraded full-buffer fallback was used
(candidate set empty), the computed fragment sample length, and the
copied fragment data handed to the playback nodes. -/
structure Playback where
  startIndex : Nat
  degraded : Bool
  segmentLength : Int
  fragment : List ℚ
deriving DecidableEq

/-- The replay routine `playRandomSoraMimi()`: returns early when there is no audio context,
it is not running, or the archive is empty; otherwise computes candidate
indices, picks `startIndex` (uniform over candidates, or uniform over the
whole queue as degraded fallback when no candidates exist), draws a
duration in `[SEGMENT_MIN_SEC, SEGMENT_MAX_SEC]`, quantizes it to a
sample count, and copies the selected circular run of segments into a
fresh fragment.  `rIdx` and `rDur` stand for the two `Math.random()`
draws.  The returned state is the (unchanged) module state after the
call. -/
def playRandomSoraMimi (s : AppState) (now : Int) (rIdx rDur : ℚ) :
    AppState × Option Playback :=
  if s.ctx = some CtxState.running ∧ s.queue ≠ [] then
    let segmentCount := s.queue.length
    let cands := candidateIndices s.queue now
    let startIndex :=
      if cands.isEmpty then (⌊rIdx * (segmentCount : ℚ)⌋).toNat
      else cands.getD (⌊rIdx * (cands.length : ℚ)⌋).toNat 0
    let durationSec := SEGMENT_MIN_SEC + rDur * (SEGMENT_MAX_SEC - SEGMENT_MIN_SEC)
    let segmentLength := segmentLengthOf durationSec s.sampleRate
    let fragment := buildFragment s.queue startIndex segmentLength.toNat
    (s, some { startIndex := startIndex, degraded := cands.isEmpty,
               segmentLength := segmentLength, fragment := fragment })
  else (s, none)

/-- One fire of the probabilistic trigger interval installed by
`startRandomTrigger`: draw `r`, and invoke `playRandomSoraMimi` exactly
when `r < TRIGGER_PROBABILITY && ARCHIVE_QUEUE.length > 10`. -/
def randomTriggerTick (s : AppState) (p r : ℚ) (now : Int) (rIdx rDur : ℚ) :
    AppState × Option Playback :=
  if r < p ∧ 10 < s.queue.length then playRandomSoraMimi s now rIdx rDur
  else (s, none)

/-- The delay drawn by `scheduleNextGuaranteedTrigger(isFirst)`:
`Math.floor(Math.random() * 30000) + 1000` for the first fire after start,
`Math.floor(Math.random() * 60000) + 1000` afterwards. -/
def scheduleDelay (isFirst : Bool) (r : ℚ) : Int :=
  if isFirst then ⌊r * 30000⌋ + 1000 else ⌊r * 60000⌋ + 1000

/-- The scheduler `scheduleNextGuaranteedTrigger(isFirst)`: clears any pending timer and
installs a new one with the drawn delay. -/
def scheduleNextGuaranteedTrigger (s : AppState) (isFirst : Bool) (r : ℚ) : AppState :=
  { s with guaranteeTimer := some (scheduleDelay isFirst r) }

/-- The body of the guaranteed-trigger timer callback: the timer has
fired (so is consumed), `playRandomSoraMimi` runs only under the guard
`audioContext && audioContext.state === 'running' && ARCHIVE_QUEUE.length > 0`,
and the `finally` block reschedules the next fire (with `isFirst = false`)
regardless of the guard outcome. -/
def guaranteedTimerFire (s : AppState) (now : Int) (rIdx rDur rNext : ℚ) :
    AppState × Option Playback :=
  let s0 : AppState := { s with guaranteeTimer := none }
  let step :=
    if s0.ctx = some CtxState.running ∧ s0.queue ≠ [] then
      playRandomSoraMimi s0 now rIdx rDur
    else (s0, none)
  (scheduleNextGuaranteedTrigger step.1 false rNext, step.2)

-- Helper lemmas

/-- The first component returned by `playRandomSoraMimi` is always the
input state: the routine only reads the queue and the context. -/
theorem playRandomSoraMimi_fst (s : AppState) (now : Int) (rIdx rDur : ℚ) :
    (playRandomSoraMimi s now rIdx rDur).1 = s := by
  unfold playRandomSoraMimi
  split <;> rfl

/-- When the audio context is running and the queue is non-empty,
`playRandomSoraMimi` produces a playback. -/
theorem playRandomSoraMimi_isSome (s : AppState) (now : Int) (rIdx rDur : ℚ)
    (hctx : s.ctx = some CtxState.running) (hne : s.queue ≠ []) :
    (playRandomSoraMimi s now rIdx rDur).2.isSome := by
  unfold playRandomSoraMimi
  rw [if_pos ⟨hctx, hne⟩]
  rfl

/-- Folding `archivePush` from the empty queue retains exactly the most
recently pushed `MAX_ARCHIVE_SEGMENTS` segments, in push order. -/
theorem foldl_archivePush_eq_drop (segs : List Segment) :
    List.foldl archivePush [] segs = segs.drop (segs.length - MAX_ARCHIVE_SEGMENTS) := by
  induction segs using List.reverseRecOn with
  | nil => simp
  | append_singleton l a ih =>
    rw [List.foldl_append, List.foldl_cons, List.foldl_nil, ih]
    unfold archivePush
    simp only [List.length_append, List.length_drop, List.length_singleton]
    by_cases h : l.length < MAX_ARCHIVE_SEGMENTS
    · have h0 : l.length - MAX_ARCHIVE_SEGMENTS = 0 := by omega
      have h1 : l.length + 1 - MAX_ARCHIVE_SEGMENTS = 0 := by omega
      rw [h0, h1, List.drop_zero, List.drop_zero, if_neg (by omega)]
    · have hMpos : 0 < MAX_ARCHIVE_SEGMENTS := by norm_num [MAX_ARCHIVE_SEGMENTS]
      have hlen : l.length - (l.length - MAX_ARCHIVE_SEGMENTS) = MAX_ARCHIVE_SEGMENTS := by
        omega
      rw [hlen, if_pos (by omega)]
      have hne : l.drop (l.length - MAX_ARCHIVE_SEGMENTS) ≠ [] := by
        intro hnil
        have hlen2 := congrArg List.length hnil
        simp only [List.length_drop, List.length_nil, hlen] at hlen2
        omega
      obtain ⟨b, t, hbt⟩ := List.exists_cons_of_ne_nil hne
      have htail : (l.drop (l.length - MAX_ARCHIVE_SEGMENTS) ++ [a]).tail
          = l.drop (l.length - MAX_ARCHIVE_SEGMENTS + 1) ++ [a] := by
        have h3 := congrArg List.tail hbt
        rw [List.tail_drop, List.tail_cons] at h3
        rw [hbt, List.cons_append, List.tail_cons, ← h3]
      have hk1 : l.length + 1 - MAX_ARCHIVE_SEGMENTS
          = l.length - MAX_ARCHIVE_SEGMENTS + 1 := by omega
      rw [htail, hk1, List.drop_append_of_le_length (by omega)]

/-- Dropping the first `k` elements of `range (k + m)` leaves `range' k m`. -/
theorem range_drop_eq_range' (k m : Nat) :
    (List.range (k + m)).drop k = List.range' k m := by
  rw [List.range_eq_range', Nat.add_comm k m, ← List.range'_append_1 0 k m,
    List.drop_left' (by simp)]
  simp

/-- A one-block test segment with timestamp `100 * i` milliseconds. -/
def oneBlockSeg (i : Nat) : Segment :=
  { samples := List.replicate BUFFER_SIZE 0, t := 100 * (i : Int) }

/-- `oneBlockSeg 0` never appears among the segments of positive index. -/
theorem oneBlockSeg_zero_notin (k m : Nat) (hk : 0 < k) :
    oneBlockSeg 0 ∉ (List.range' k m).map oneBlockSeg := by
  intro hmem
  obtain ⟨i, hi, heq⟩ := List.mem_map.mp hmem
  have ht := congrArg Segment.t heq
  simp only [oneBlockSeg, Nat.cast_zero, mul_zero] at ht
  have hi0 : i = 0 := by
    have : (i : Int) = 0 := by omega
    exact_mod_cast this
  rw [hi0] at hi
  have := (List.mem_range'_1.mp hi).1
  omega

-- Claim theorems

/-- Claim C1: for every sequence of capture events fed to `archiveAudio`
starting from the empty queue, the resulting queue never exceeds
`MAX_ARCHIVE_SEGMENTS` entries and consists of exactly the most recently
appended segments, in append order with no gaps or reordering (it equals
the appended sequence with only its oldest prefix dropped).  Because the
statement holds for every event list, it holds after each call of any
call sequence. -/
theorem archive_capacity_and_order (events : List (List ℚ × Int)) :
    (events.foldl (fun acc e => archiveAudio acc e.1 e.2) []).length
        ≤ MAX_ARCHIVE_SEGMENTS ∧
    events.foldl (fun acc e => archiveAudio acc e.1 e.2) []
        = (events.map fun e => Segment.mk e.1 e.2).drop
            (events.length - MAX_ARCHIVE_SEGMENTS) := by
  have hfold : events.foldl (fun acc e => archiveAudio acc e.1 e.2) []
      = List.foldl archivePush [] (events.map fun e => Segment.mk e.1 e.2) := by
    rw [List.foldl_map]
    rfl
  rw [hfold, foldl_archivePush_eq_drop]
  refine ⟨?_, by rw [List.length_map]⟩
  simp only [List.length_drop, List.length_map]
  omega

/-- Claim C5: appending 400 one-block segments with strictly increasing
timestamps 100 ms apart into the capacity-300 archive leaves exactly 300
segments, the oldest retained one being the segment of original index
100; and already after `MAX_ARCHIVE_SEGMENTS + 1` appends the very first
appended segment is gone. -/
theorem archive_eviction_scenario :
    (List.foldl archivePush [] ((List.range 400).map oneBlockSeg)).length = 300 ∧
    (List.foldl archivePush [] ((List.range 400).map oneBlockSeg)).head?
        = some (oneBlockSeg 100) ∧
    oneBlockSeg 0 ∉ List.foldl archivePush [] ((List.range 400).map oneBlockSeg) ∧
    oneBlockSeg 0 ∉ List.foldl archivePush [] ((List.range 301).map oneBlockSeg) := by
  have hq : List.foldl archivePush [] ((List.range 400).map oneBlockSeg)
      = (List.range' 100 300).map oneBlockSeg := by
    rw [foldl_archivePush_eq_drop]
    simp only [List.length_map, List.length_range]
    rw [show (400 : Nat) - MAX_ARCHIVE_SEGMENTS = 100 by norm_num [MAX_ARCHIVE_SEGMENTS],
      ← List.map_drop, show (400 : Nat) = 100 + 300 by norm_num, range_drop_eq_range']
  have hq301 : List.foldl archivePush [] ((List.range 301).map oneBlockSeg)
      = (List.range' 1 300).map oneBlockSeg := by
    rw [foldl_archivePush_eq_drop]
    simp only [List.length_map, List.length_range]
    rw [show (301 : Nat) - MAX_ARCHIVE_SEGMENTS = 1 by norm_num [MAX_ARCHIVE_SEGMENTS],
      ← List.map_drop, show (301 : Nat) = 1 + 300 by norm_num, range_drop_eq_range']
  refine ⟨?_, ?_, ?_, ?_⟩
  · rw [hq]; simp
  · rw [hq, List.head?_eq_getElem?, List.getElem?_map,
      List.getElem?_range' 100 1 (show (0 : Nat) < 300 by norm_num)]
    simp
  · rw [hq]
    exact oneBlockSeg_zero_notin 100 300 (by norm_num)
  · rw [hq301]
    exact oneBlockSeg_zero_notin 1 300 (by norm_num)

/-- Claim C3 failing input: with the legal `Math.random()` draw 0.999 the
guarantee loop computes an inter-fire delay of 60940 ms, exceeding the
claimed 60000 ms bound, and a first delay of 30970 ms, exceeding the
claimed 30000 ms bound. -/
theorem scheduleDelay_exceeds_documented_bound :
    scheduleDelay false (999 / 1000) = 60940 ∧ 60000 < scheduleDelay false (999 / 1000) ∧
    scheduleDelay true (999 / 1000) = 30970 ∧ 30000 < scheduleDelay true (999 / 1000) := by
  refine ⟨?_, ?_, ?_, ?_⟩ <;> norm_num [scheduleDelay]

/-- Claim C7: for a duration in the configured `[2, 5]` second range and
any sample rate, the computed fragment length is a whole multiple of
`BUFFER_SIZE` and differs from `durationSec * sampleRate` by less than
one `BUFFER_SIZE`. -/
theorem fragment_length_quantized (d sr : ℚ)
    (h2 : SEGMENT_MIN_SEC ≤ d) (h5 : d ≤ SEGMENT_MAX_SEC) :
    (∃ k : Int, segmentLengthOf d sr = k * (BUFFER_SIZE : Int)) ∧
    |((segmentLengthOf d sr : Int) : ℚ) - d * sr| < (BUFFER_SIZE : ℚ) := by
  constructor
  · exact ⟨round (d * sr / (BUFFER_SIZE : ℚ)), rfl⟩
  · have hB : ((BUFFER_SIZE : ℚ)) = 4096 := by norm_num [BUFFER_SIZE]
    have hB0 : ((BUFFER_SIZE : ℚ)) ≠ 0 := by rw [hB]; norm_num
    set x : ℚ := d * sr / (BUFFER_SIZE : ℚ) with hx
    have hcast : ((segmentLengthOf d sr : Int) : ℚ) = (round x : ℚ) * (BUFFER_SIZE : ℚ) := by
      unfold segmentLengthOf
      push_cast
      rw [hx]
    have hmul : x * (BUFFER_SIZE : ℚ) = d * sr := div_mul_cancel₀ _ hB0
    rw [hcast, ← hmul, ← sub_mul, abs_mul]
    have hround : |(round x : ℚ) - x| ≤ 1 / 2 := by
      have := abs_sub_round x
      rwa [abs_sub_comm] at this
    have hBpos : (0 : ℚ) < (BUFFER_SIZE : ℚ) := by rw [hB]; norm_num
    have habsB : |(BUFFER_SIZE : ℚ)| = (BUFFER_SIZE : ℚ) := abs_of_pos hBpos
    rw [habsB]
    calc |(round x : ℚ) - x| * (BUFFER_SIZE : ℚ)
        ≤ (1 / 2) * (BUFFER_SIZE : ℚ) := by
          exact mul_le_mul_of_nonneg_right hround (le_of_lt hBpos)
      _ < (BUFFER_SIZE : ℚ) := by rw [hB]; norm_num

/-- Claim C7 witness: the bound instantiated at `durationSec = 3`,
`sampleRate = 44100`. -/
theorem fragment_length_quantized_witness :
    (∃ k : Int, segmentLengthOf 3 44100 = k * (BUFFER_SIZE : Int)) ∧
    |((segmentLengthOf 3 44100 : Int) : ℚ) - 3 * 44100| < (BUFFER_SIZE : ℚ) :=
  fragment_length_quantized 3 44100 (by norm_num [SEGMENT_MIN_SEC])
    (by norm_num [SEGMENT_MAX_SEC])

/-- Claim C10: calling `playRandomSoraMimi` with an empty archive queue,
or with an absent or non-running audio context, is a no-op: no playback
is produced and the state (in particular the queue) is unchanged. -/
theorem play_empty_or_stopped_noop (s : AppState) (now : Int) (rIdx rDur : ℚ)
    (h : s.queue = [] ∨ s.ctx ≠ some CtxState.running) :
    playRandomSoraMimi s now rIdx rDur = (s, none) := by
  unfold playRandomSoraMimi
  rw [if_neg]
  rintro ⟨hctx, hne⟩
  rcases h with h | h
  · exact hne h
  · exact h hctx

/-- Claim C10 witness: the no-op at a concrete state with an empty queue
and a running context. -/
theorem play_empty_or_stopped_noop_witness :
    playRandomSoraMimi ⟨some CtxState.running, 44100, [], none⟩ 10000 0 0 =
      (⟨some CtxState.running, 44100, [], none⟩, none) :=
  play_empty_or_stopped_noop _ 10000 0 0 (Or.inl rfl)

/-- Claim C8: after every fire of the guarantee-loop timer callback —
whatever the state, in particular even when the guard (context running,
queue non-empty) fails — the callback reschedules itself: the post-state
carries a pending timer with the freshly drawn delay, which is at least
1000 ms. -/
theorem guarantee_loop_always_reschedules (s : AppState) (now : Int) (rIdx rDur rNext : ℚ)
    (h : 0 ≤ rNext) :
    ((guaranteedTimerFire s now rIdx rDur rNext).1).guaranteeTimer
        = some (scheduleDelay false rNext) ∧
    1000 ≤ scheduleDelay false rNext := by
  constructor
  · rfl
  · have hd : scheduleDelay false rNext = ⌊rNext * 60000⌋ + 1000 := rfl
    rw [hd]
    have h0 : (0 : Int) ≤ ⌊rNext * 60000⌋ := Int.floor_nonneg.mpr (by positivity)
    omega

/-- Claim C8 witness: the reschedule at a concrete state whose guard
fails (absent context) and draw 1/2. -/
theorem guarantee_loop_always_reschedules_witness :
    ((guaranteedTimerFire ⟨none, 44100, [], none⟩ 0 0 0 (1 / 2)).1).guaranteeTimer
        = some (scheduleDelay false (1 / 2)) ∧
    1000 ≤ scheduleDelay false (1 / 2) :=
  guarantee_loop_always_reschedules ⟨none, 44100, [], none⟩ 0 0 0 (1 / 2) (by norm_num)

/-- Claim C2: when every queued segment was captured within the last
5000 ms of `now` (timestamps spanning `now - 5000 .. now`) and `now` is a
realistic positive clock value, an index belongs to the candidate set
precisely when its segment is older than the exclusion window: segments
captured within the last `EXCLUDE_RECENT_MS` milliseconds are excluded
and all strictly older ones are included. -/
theorem candidate_exclusion (q : List Segment) (now : Int)
    (hnow : 5000 < now)
    (hspan : ∀ seg ∈ q, now - 5000 ≤ seg.t ∧ seg.t ≤ now)
    (i : Nat) (seg : Segment) (hget : q[i]? = some seg) :
    i ∈ candidateIndices q now ↔ EXCLUDE_RECENT_MS < now - seg.t := by
  obtain ⟨hi, -⟩ := List.getElem?_eq_some_iff.mp hget
  have hmem : seg ∈ q := List.getElem?_mem hget
  have ht := hspan seg hmem
  have ht0 : seg.t ≠ 0 := by omega
  unfold candidateIndices
  rw [List.mem_filter]
  constructor
  · rintro ⟨-, hp⟩
    rw [hget] at hp
    exact (of_decide_eq_true hp).2
  · intro hlt
    refine ⟨List.mem_range.mpr hi, ?_⟩
    rw [hget]
    exact decide_eq_true ⟨ht0, hlt⟩

/-- Claim C2 witness: with two segments timestamped 5500 and 10000 at
`now = 10000`, index 0 (4500 ms old) is a candidate. -/
theorem candidate_exclusion_witness :
    (0 ∈ candidateIndices [Segment.mk [] 5500, Segment.mk [] 10000] 10000
      ↔ EXCLUDE_RECENT_MS < 10000 - (Segment.mk [] 5500).t) :=
  candidate_exclusion [Segment.mk [] 5500, Segment.mk [] 10000] 10000
    (by norm_num) (by decide) 0 (Segment.mk [] 5500) rfl

/-- Claim C4: one fire of the probabilistic loop with a running context
produces a playback exactly when the drawn value is below the trigger
probability and the archive holds more than 10 segments; when the
condition fails, the fire is a complete no-op. -/
theorem prob_trigger_gate (s : AppState) (p r : ℚ) (now : Int) (rIdx rDur : ℚ)
    (hctx : s.ctx = some CtxState.running) :
    ((randomTriggerTick s p r now rIdx rDur).2.isSome ↔ r < p ∧ 10 < s.queue.length) ∧
    (¬(r < p ∧ 10 < s.queue.length) → randomTriggerTick s p r now rIdx rDur = (s, none)) := by
  constructor
  · constructor
    · intro hs
      by_contra hc
      unfold randomTriggerTick at hs
      rw [if_neg hc] at hs
      simp at hs
    · rintro ⟨h1, h2⟩
      unfold randomTriggerTick
      rw [if_pos ⟨h1, h2⟩]
      refine playRandomSoraMimi_isSome s now rIdx rDur hctx ?_
      intro hnil
      rw [hnil] at h2
      simp at h2
  · intro hc
    unfold randomTriggerTick
    rw [if_neg hc]

/-- Claim C4 witness: with probability 1, draw 0, and an 11-segment
archive, the gate is open; the iff and the no-op clause instantiate. -/
theorem prob_trigger_gate_witness :
    ((randomTriggerTick
        ⟨some CtxState.running, 44100, List.replicate 11 (Segment.mk [] 0), none⟩
        1 0 0 0 0).2.isSome ↔
      (0 : ℚ) < 1 ∧ 10 <
        (AppState.mk (some CtxState.running) 44100
          (List.replicate 11 (Segment.mk [] 0)) none).queue.length) ∧
    (¬((0 : ℚ) < 1 ∧ 10 <
        (AppState.mk (some CtxState.running) 44100
          (List.replicate 11 (Segment.mk [] 0)) none).queue.length) →
      randomTriggerTick
        ⟨some CtxState.running, 44100, List.replicate 11 (Segment.mk [] 0), none⟩
        1 0 0 0 0 =
      (⟨some CtxState.running, 44100, List.replicate 11 (Segment.mk [] 0), none⟩, none)) :=
  prob_trigger_gate _ 1 0 0 0 0 rfl

/-- Claim C6: when the candidate set is empty but the archive is not and
the context is running, the selector does not fail: it returns a playback
flagged as degraded whose start index is the uniform full-range draw
`⌊rIdx * size⌋`, a valid index of the queue. -/
theorem degraded_fallback_valid (s : AppState) (now : Int) (rIdx rDur : ℚ)
    (hctx : s.ctx = some CtxState.running) (hne : s.queue ≠ [])
    (hcand : candidateIndices s.queue now = [])
    (h0 : 0 ≤ rIdx) (h1 : rIdx < 1) :
    ∃ pb, (playRandomSoraMimi s now rIdx rDur).2 = some pb ∧
      pb.degraded = true ∧
      pb.startIndex = (⌊rIdx * (s.queue.length : ℚ)⌋).toNat ∧
      pb.startIndex < s.queue.length := by
  have hn : 0 < s.queue.length := List.length_pos.mpr hne
  have hfl : ⌊rIdx * (s.queue.length : ℚ)⌋ < (s.queue.length : Int) := by
    apply Int.floor_lt.mpr
    calc rIdx * (s.queue.length : ℚ) < 1 * (s.queue.length : ℚ) :=
          mul_lt_mul_of_pos_right h1 (by exact_mod_cast hn)
      _ = (((s.queue.length : Int)) : ℚ) := by push_cast; ring
  refine ⟨⟨(⌊rIdx * (s.queue.length : ℚ)⌋).toNat, true,
      segmentLengthOf (SEGMENT_MIN_SEC + rDur * (SEGMENT_MAX_SEC - SEGMENT_MIN_SEC))
        s.sampleRate,
      buildFragment s.queue (⌊rIdx * (s.queue.length : ℚ)⌋).toNat
        (segmentLengthOf (SEGMENT_MIN_SEC + rDur * (SEGMENT_MAX_SEC - SEGMENT_MIN_SEC))
          s.sampleRate).toNat⟩, ?_, rfl, rfl, ?_⟩
  · unfold playRandomSoraMimi
    rw [if_pos ⟨hctx, hne⟩]
    simp only [hcand, List.isEmpty_nil, if_true]
  · show (⌊rIdx * (s.queue.length : ℚ)⌋).toNat < s.queue.length
    omega

/-- Claim C6 witness: a one-segment archive captured 1000 ms ago (inside
the exclusion window) still yields a valid degraded playback. -/
theorem degraded_fallback_valid_witness :
    ∃ pb, (playRandomSoraMimi ⟨some CtxState.running, 44100, [Segment.mk [] 9000], none⟩
        10000 (1 / 2) 0).2 = some pb ∧
      pb.degraded = true ∧
      pb.startIndex = (⌊(1 / 2 : ℚ) *
        ((AppState.mk (some CtxState.running) 44100 [Segment.mk [] 9000] none).queue.length
          : ℚ)⌋).toNat ∧
      pb.startIndex <
        (AppState.mk (some CtxState.running) 44100 [Segment.mk [] 9000] none).queue.length :=
  degraded_fallback_valid _ 10000 (1 / 2) 0 rfl (by decide) (by decide)
    (by norm_num) (by norm_num)

/-- Elements accumulated by the copy loop are either inherited from the
starting accumulator or copied out of a queued segment's samples. -/
theorem foldl_copyStep_elems (q : List Segment) (si sl : Nat) :
    ∀ (l : List Nat) (st : Nat × List ℚ),
      (∀ x ∈ st.2, x = 0 ∨ ∃ seg ∈ q, x ∈ seg.samples) →
      ∀ x ∈ (l.foldl (copyStep q si sl) st).2, x = 0 ∨ ∃ seg ∈ q, x ∈ seg.samples := by
  intro l
  induction l with
  | nil =>
    intro st h
    simpa using h
  | cons i t ih =>
    intro st h
    rw [List.foldl_cons]
    apply ih
    intro x hx
    unfold copyStep at hx
    by_cases hoff : st.1 < sl
    · rw [if_pos hoff] at hx
      cases hq : q[(si + i) % q.length]? with
      | none =>
        rw [hq] at hx
        exact h x hx
      | some seg =>
        rw [hq] at hx
        simp only [List.mem_append] at hx
        rcases hx with hx | hx
        · exact h x hx
        · exact Or.inr ⟨seg, List.getElem?_mem hq, List.mem_of_mem_take hx⟩
    · rw [if_neg hoff] at hx
      exact h x hx

/-- Every sample of a built fragment is either untouched zero padding or
a value copied out of one of the queue's segments. -/
theorem buildFragment_elems (q : List Segment) (si sl : Nat) :
    ∀ x ∈ buildFragment q si sl, x = 0 ∨ ∃ seg ∈ q, x ∈ seg.samples := by
  intro x hx
  simp only [buildFragment, List.mem_append] at hx
  rcases hx with hx | hx
  · exact foldl_copyStep_elems q si sl _ (0, []) (by simp) x hx
  · exact Or.inl (List.eq_of_mem_replicate hx)

/-- Claim C9: fragment selection and concatenation never mutate the
archive: the module state after `playRandomSoraMimi` (queue included,
every retained segment with its samples) is exactly the input state, and
every sample of a produced fragment is a value copied out of the input
queue (or untouched zero padding), never a reference into it — so later
queue updates cannot alter a fragment already produced. -/
theorem selection_pure_copy (s : AppState) (now : Int) (rIdx rDur : ℚ) :
    (playRandomSoraMimi s now rIdx rDur).1 = s ∧
    ∀ pb, (playRandomSoraMimi s now rIdx rDur).2 = some pb →
      ∀ x ∈ pb.fragment, x = 0 ∨ ∃ seg ∈ s.queue, x ∈ seg.samples := by
  refine ⟨playRandomSoraMimi_fst s now rIdx rDur, ?_⟩
  intro pb hpb
  unfold playRandomSoraMimi at hpb
  by_cases hcond : s.ctx = some CtxState.running ∧ s.queue ≠ []
  · rw [if_pos hcond] at hpb
    rw [Option.some_inj] at hpb
    rw [← hpb]
    exact buildFragment_elems s.queue _ _
  · rw [if_neg hcond] at hpb
    simp at hpb

/-- Claim C9 witness: the purity statement instantiated at a concrete
one-segment state. -/
theorem selection_pure_copy_witness :
    (playRandomSoraMimi ⟨some CtxState.running, 44100, [Segment.mk [1] 100], none⟩
        10000 0 0).1
      = ⟨some CtxState.running, 44100, [Segment.mk [1] 100], none⟩ ∧
    ∀ pb, (playRandomSoraMimi ⟨some CtxState.running, 44100, [Segment.mk [1] 100], none⟩
        10000 0 0).2 = some pb →
      ∀ x ∈ pb.fragment, x = 0 ∨ ∃ seg ∈
        (AppState.mk (some CtxState.running) 44100 [Segment.mk [1] 100] none).queue,
        x ∈ seg.samples :=
  selection_pure_copy _ 10000 0 0

end Soramimi
